import Mathlib

/-!
Verification development for the cmdClient command-dispatch framework.

Shallow embedding of the core pieces of the repository:
* `Check.run` (src/Check.py): the composable boolean gating system;
* `Command.run` terminal-outcome mapping (src/Command.py): lifecycle effects;
* `flag_parser` (src/lib.py): the flag grammar parser;
* `parse_message` command-name matching (src/cmdClient.py);
* the LRU snapshot cache, the transient registry of active contexts,
  `run_cmd`, `on_message_edit` and the two response cleaners (src/cmdClient.py).

Python strings in the dispatcher's name-matching code are modelled as lists of
Unicode code points (`List Nat`); elsewhere Lean `String` is used directly.
Effectful operations (task cancellation, message deletes, log calls, sleeps)
are modelled as explicit effect traces.
-/

/-! ### Check engine (src/Check.py) -/

/-- A `Check` from src/Check.py: a name, a user-facing failure message
(Python `msg: str`; empty string models a falsy message), its own predicate
(identified by a number resolved in an environment of predicate results),
the `parents` list (OR-composed, superseding) and the `required` list
(AND-composed prerequisites). -/
inductive Check : Type where
  | mk (name : String) (msg : String) (pred : Nat) (parents : List Check) (required : List Check)

def Check.msg : Check → String
  | .mk _ m _ _ _ => m

def Check.parents : Check → List Check
  | .mk _ _ _ ps _ => ps

def Check.required : Check → List Check
  | .mk _ _ _ _ rs => rs

mutual
/-- `Check.run` from src/Check.py lines 67-82: first the parents (first `true`
wins), then the requirements (first `false` loses), then the check's own
predicate.  `env` maps predicate identifiers to their boolean results.  The
second component is the trace of predicate identifiers actually evaluated,
in evaluation order, which makes short-circuiting observable. -/
def runCheck (env : Nat → Bool) : Check → Bool × List Nat
  | .mk _ _ p parents required =>
    let pr := runParents env parents
    if pr.1 then (true, pr.2)
    else
      let rq := runRequired env required
      if rq.1 then (env p, pr.2 ++ rq.2 ++ [p])
      else (false, pr.2 ++ rq.2)

/-- The `for check in self.parents` loop: stop at the first parent whose run
returns `true`. -/
def runParents (env : Nat → Bool) : List Check → Bool × List Nat
  | [] => (false, [])
  | c :: cs =>
    let r := runCheck env c
    if r.1 then (true, r.2)
    else
      let rest := runParents env cs
      (rest.1, r.2 ++ rest.2)

/-- The `for check in self.required` loop: stop at the first requirement whose
run returns `false`. -/
def runRequired (env : Nat → Bool) : List Check → Bool × List Nat
  | [] => (true, [])
  | c :: cs =>
    let r := runCheck env c
    if r.1 then
      let rest := runRequired env cs
      (rest.1, r.2 ++ rest.2)
    else (false, r.2)
end

/-- Trace of predicate evaluations performed by running one check. -/
def checkTrace (env : Nat → Bool) (c : Check) : List Nat :=
  (runCheck env c).2

/-! ### Command lifecycle terminal mapping (src/Command.py) -/

/-- Outcome of awaiting the command's top-level task inside `Command.run`:
either it returns normally, or one of the exception classes handled by the
`except` chain escapes it.  `failedCheck` carries the failing check's `msg`,
`safeCancelled` carries the exception's `msg` and `details`, `fault` carries
the rendering of an arbitrary other exception. -/
inductive ExecOutcome : Type where
  | ok
  | failedCheck (msg : String)
  | safeCancelled (msg : Option String) (details : String)
  | timeout
  | cancelled
  | fault (err : String)
deriving DecidableEq, Repr

/-- Side effects of `Command.run` (src/Command.py lines 56-116): log records
at their severity, plus the two kinds of outbound sends used there. -/
inductive Effect : Type where
  | logDebug (s : String)
  | logWarning (s : String)
  | logError (s : String)
  | errorReply (s : String)
  | reply (s : String)
deriving DecidableEq, Repr

/-- Whether an effect is an outbound send. -/
def Effect.isSend : Effect → Bool
  | .errorReply _ => true
  | .reply _ => true
  | _ => false

/-- Whether an effect is an error-severity log record. -/
def Effect.isErrorLog : Effect → Bool
  | .logError _ => true
  | _ => false

/-- The `try/except` chain of `Command.run` (src/Command.py lines 61-116),
mapping the outcome of the awaited task to its side effects, in order.
`FailedCheck` logs at debug and replies only when the check's `msg` is truthy;
`SafeCancellation` logs at debug and replies only when `msg is not None`;
`TimeoutError` logs at warning and always replies; `CancelledError` only logs
at debug; any other exception logs at error and sends a generic reply. -/
def commandRunEffects : ExecOutcome → List Effect
  | .ok => [.logDebug "Command completed execution without error."]
  | .failedCheck m =>
      .logDebug "Command failed check" :: (if m = "" then [] else [.errorReply m])
  | .safeCancelled m d =>
      .logDebug ("Caught a safe command cancellation: " ++ d) ::
        (match m with
         | none => []
         | some s => [.errorReply s])
  | .timeout =>
      [.logWarning "Caught an unhandled TimeoutError", .errorReply "Operation timed out."]
  | .cancelled =>
      [.logDebug "Command was cancelled, probably due to a message edit."]
  | .fault e =>
      [.logError e,
       .reply ("An unexpected internal error occurred while running your command! " ++
               "Please report the following error to the developer:\n" ++ e)]

/-- The decorator produced by `Check.__call__` (src/Check.py lines 47-65):
run the check; on `False` raise `FailedCheck(self)` (carrying this check's
message), otherwise continue into the wrapped function whose outcome is
`inner`. -/
def checkedOutcome (env : Nat → Bool) (c : Check) (inner : ExecOutcome) : ExecOutcome :=
  if (runCheck env c).1 then inner else .failedCheck c.msg

/-! ### Flag parser (src/lib.py `flag_parser`) -/

/-- ASCII whitespace as recognised by Python's `\s` on the inputs considered
here (the regular expression `(\S+)` splits on runs of these). -/
def isWs (c : Char) : Bool :=
  c = ' ' || c = '\t' || c = '\n' || c = '\r' || c = '\x0b' || c = '\x0c'

/-- Truthiness of `str.strip()` is decided by a non-whitespace character;
a run produced by the splitter is whitespace iff its first character is. -/
def strIsWs (t : String) : Bool :=
  match t.toList with
  | [] => true
  | c :: _ => isWs c

/-- `re.split(r'(\S+)', args)`: the input split into alternating whitespace
and non-whitespace runs, starting and ending with a (possibly empty)
whitespace run, exactly as `re.split` with one capturing group returns it. -/
def reSplit (s : String) : List String :=
  let runs := (s.toList.splitBy (fun a b => isWs a == isWs b)).map (fun r => String.mk r)
  let runs :=
    match runs with
    | [] => runs
    | r :: _ => if strIsWs r then runs else "" :: runs
  match runs with
  | [] => [""]
  | _ => if strIsWs (runs.getLastD "") then runs else runs ++ [""]

/-- Python `s.strip('=')`: remove leading and trailing occurrences of a
character. -/
def stripChar (ch : Char) (s : String) : String :=
  String.mk (((s.toList.dropWhile (· == ch)).reverse.dropWhile (· == ch)).reverse)

/-- Python `s.strip()` on ASCII whitespace. -/
def pyStrip (s : String) : String :=
  String.mk (((s.toList.dropWhile isWs).reverse.dropWhile isWs).reverse)

/-- Python `s.rstrip()` on ASCII whitespace. -/
def pyRStrip (s : String) : String :=
  String.mk ((s.toList.reverse.dropWhile isWs).reverse)

/-- Python `s.endswith(suf)`. -/
def pyEndsWith (s suf : String) : Bool :=
  suf.toList.isSuffixOf s.toList

/-- A value in the returned flag dictionary: `False`/`True` for boolean
flags, a string for value flags. -/
inductive FlagVal : Type where
  | bool (b : Bool)
  | str (s : String)
deriving DecidableEq, Repr

/-- Python `list.index`: index of the first occurrence. -/
def pyIndex (l : List String) (x : String) : Nat :=
  l.findIdx (fun y => y == x)

/-- Python dict assignment `d[k] = v`: replace the value in place if the key
exists, else append the new binding. -/
def dictSet (d : List (String × FlagVal)) (k : String) (v : FlagVal) :
    List (String × FlagVal) :=
  if d.any (fun p => p.1 == k) then d.map (fun p => if p.1 == k then (k, v) else p)
  else d ++ [(k, v)]

/-- Python `dict[k]` lookup (as an option). -/
def dictGet (d : List (String × FlagVal)) (k : String) : Option FlagVal :=
  (d.find? (fun p => p.1 == k)).map (·.2)

/-- The `if/elif/elif/else` chain of src/lib.py lines 83-91: look for the
short form `-flag`, then the long form `--flag`, then the em-dash form
`—flag`; the position recorded is the first occurrence of the first form
present, or `none` when no form occurs. -/
def findFlagIndex (params : List String) (clean : String) : Option Nat :=
  if ("-" ++ clean) ∈ params then some (pyIndex params ("-" ++ clean))
  else if ("--" ++ clean) ∈ params then some (pyIndex params ("--" ++ clean))
  else if ("—" ++ clean) ∈ params then some (pyIndex params ("—" ++ clean))
  else none

/-- Lexicographic `≤` on code points, the order Python uses to compare the
`(index, flag)` tuples with equal indices. -/
def strLeB (a b : String) : Bool :=
  List.isPrefixOf a.toList b.toList ||
    (decide (∃ n, n < a.toList.length ∧ n < b.toList.length ∧
      (a.toList.take n = b.toList.take n) ∧ a.toList.getD n ' ' < b.toList.getD n ' '))

/-- Python tuple comparison on `(index, flag)` pairs. -/
def pairLe (x y : Nat × String) : Bool :=
  x.1 < y.1 || (x.1 == y.1 && strLeB x.2 y.2)

/-- Insert into a `le`-sorted list before the first element that is not
`le` the inserted one (stable insertion). -/
def insSorted (le : α → α → Bool) (x : α) : List α → List α
  | [] => [x]
  | y :: ys => if le x y then x :: y :: ys else y :: insSorted le x ys

/-- Stable insertion sort: Python `sorted`. -/
def pySorted (le : α → α → Bool) : List α → List α
  | [] => []
  | x :: xs => insSorted le x (pySorted le xs)

/-- The first `for flag in flags` loop of src/lib.py lines 80-92: absent
flags are recorded as `False` in declaration order, found flags are
collected with their position. -/
def collectFlags (params : List String) (flags : List String) :
    List (String × FlagVal) × List (Nat × String) :=
  flags.foldl
    (fun acc flag =>
      let clean := stripChar '=' flag
      match findFlagIndex params clean with
      | none => (dictSet acc.1 clean (.bool false), acc.2)
      | some idx => (acc.1, acc.2 ++ [(idx, flag)]))
    ([], [])

/-- First non-whitespace element of `flag_params` together with its index
(the `next(((j, arg) ...))` expression of src/lib.py line 119). -/
def firstContentful : List String → Option (Nat × String)
  | [] => none
  | a :: rest =>
    if pyStrip a ≠ "" then some (0, a)
    else (firstContentful rest).map (fun p => (p.1 + 1, p.2))

/-- The `for (i, (index, flag)) in enumerate(indices)` loop of src/lib.py
lines 104-131: for each found flag compute its value span, produce its value,
and collect the pieces it returns to `final_params`, in iteration order. -/
def flagLoop (params : List String) : List (Nat × String) →
    List (String × FlagVal) × List String
  | [] => ([], [])
  | (index, flag) :: rest =>
    let flag_params :=
      if params.length > index + 1 then
        match rest with
        | (nextIdx, _) :: _ => (params.drop (index + 1)).take (nextIdx - (index + 1))
        | [] => params.drop (index + 1)
      else []
    let step : FlagVal × List String :=
      if pyEndsWith flag "==" then
        (.str (pyStrip (String.join flag_params)), [])
      else if pyEndsWith flag "=" then
        match firstContentful flag_params with
        | some (j, arg) =>
          (.str arg,
           if flag_params.length > j + 1 then
             [pyRStrip (String.join (flag_params.drop (j + 1)))]
           else [])
        | none => (.str "", [])
      else
        (.bool true, [pyRStrip (String.join flag_params)])
    let r := flagLoop params rest
    ((stripChar '=' flag, step.1) :: r.1, step.2 ++ r.2)

/-- `flag_parser` from src/lib.py lines 47-138.  Returns the flag dictionary
(as an insertion-ordered association list with Python dict update semantics)
and the remaining argument text. -/
def parseFlags (args : String) (flags : List String) :
    List (String × FlagVal) × String :=
  let params0 := reSplit args
  let pe :=
    if "--" ∈ params0 then
      let i := pyIndex params0 "--"
      (params0.take i, if i < params0.length - 1 then params0.drop (i + 1) else [])
    else (params0, [])
  let params := pe.1
  let end_params := pe.2
  let fi := collectFlags params flags
  let indices := pySorted pairLe fi.2
  let final_params0 :=
    match indices with
    | [] => params
    | (idx, _) :: _ => params.take idx
  let lr := flagLoop params indices
  let final_flags := lr.1.foldl (fun d kv => dictSet d kv.1 kv.2) fi.1
  let final_params := (final_params0 ++ lr.2) ++ end_params
  (final_flags, pyStrip (String.join final_params))

/-! ### Command-name matching in `parse_message` (src/cmdClient.py lines 224-232)

Strings here are modelled as lists of Unicode code points. -/

/-- `str.lower` on one code point (ASCII letters, the range used by command
names). -/
def lowerCp (n : Nat) : Nat :=
  if 65 ≤ n ∧ n ≤ 90 then n + 32 else n

/-- `stripcontent[:len(cmdname)].lower() == cmdname` from
src/cmdClient.py line 227. -/
def matchesName (content name : List Nat) : Bool :=
  (content.take name.length).map lowerCp == name

/-- One step of Python `max(cmdnames, key=len)`: keep the incumbent unless
the new element is strictly longer (so the first maximal element wins). -/
def maxStep (acc : Option (List Nat)) (x : List Nat) : Option (List Nat) :=
  match acc with
  | none => some x
  | some b => if x.length > b.length then some x else some b

/-- Python `max(cmdnames, key=len)`: the first element of maximal length. -/
def maxByLen (l : List (List Nat)) : Option (List Nat) :=
  l.foldl maxStep none

/-- The command-name resolution of `parse_message` (src/cmdClient.py lines
227-231): filter the registered names by the lowercased leading slice of the
post-prefix content, then take the longest match (`none` when no name
matches, in which case no command is dispatched). -/
def pickCmdName (names : List (List Nat)) (content : List Nat) : Option (List Nat) :=
  maxByLen (names.filter (fun n => matchesName content n))

/-! ### Snapshot cache, transient registry and edit reaction (src/cmdClient.py) -/

/-- `FlatContext` (src/Context.py lines 14-25): the immutable snapshot of an
invocation stored in the bounded cache.  Message/channel/guild/author
identities are numbers; `prefixStr` models the `prefix` field. -/
structure FlatCtx : Type where
  mid : Option Nat
  cid : Option Nat
  gid : Option Nat
  uid : Option Nat
  arg_str : Option String
  cmd : Option String
  aliasName : Option String
  prefixStr : Option String
  cleanup_on_edit : Bool
  reparse_on_edit : Bool
  sent_messages : List Nat
deriving DecidableEq, Repr

/-- The live `Context` (src/Context.py lines 28-101) restricted to the data
the dispatcher reads: identities, argument text, edit-policy flags, the
append-only list of sent-response identities, the task identities owned by
the invocation, and the `manage_messages` permission the client holds in the
channel (read by `active_command_response_cleaner`). -/
structure Ctx : Type where
  mid : Option Nat
  cid : Option Nat
  gid : Option Nat
  uid : Option Nat
  arg_str : Option String
  cmdName : Option String
  aliasName : Option String
  prefixStr : Option String
  cleanup_on_edit : Bool
  reparse_on_edit : Bool
  sent_messages : List Nat
  tasks : List Nat
  permManageMessages : Bool
deriving DecidableEq, Repr

/-- `Context.flatten` (src/Context.py lines 110-128). -/
def Ctx.flatten (c : Ctx) : FlatCtx :=
  { mid := c.mid, cid := c.cid, gid := c.gid, uid := c.uid,
    arg_str := c.arg_str, cmd := c.cmdName, aliasName := c.aliasName,
    prefixStr := c.prefixStr, cleanup_on_edit := c.cleanup_on_edit,
    reparse_on_edit := c.reparse_on_edit, sent_messages := c.sent_messages }

/-- The `cachetools.LRUCache` used as `ctx_cache`: entries most-recently-used
first; the capacity is fixed at construction (a type-level parameter, as the
real cache's `maxsize` never changes). -/
structure LRU (cap : Nat) : Type where
  entries : List (Nat × FlatCtx)
deriving DecidableEq, Repr

/-- Remove a key from the entry list. -/
def eraseEntry (l : List (Nat × FlatCtx)) (k : Nat) : List (Nat × FlatCtx) :=
  l.filter (fun p => p.1 ≠ k)

/-- `key in cache` (`Cache.__contains__`, which does not promote). -/
def LRU.holds (c : LRU cap) (k : Nat) : Bool :=
  c.entries.any (fun p => p.1 == k)

/-- Non-promoting view of the stored snapshot for a key. -/
def LRU.lookup (c : LRU cap) (k : Nat) : Option FlatCtx :=
  (c.entries.find? (fun p => p.1 == k)).map (·.2)

/-- `cache[key] = value` (`LRUCache.__setitem__`): update-and-touch when the
key is present; otherwise insert, evicting the least-recently-used entry
when the cache is at capacity. -/
def LRU.insert (c : LRU cap) (k : Nat) (v : FlatCtx) : LRU cap :=
  if c.holds k then ⟨(k, v) :: eraseEntry c.entries k⟩
  else if c.entries.length < cap then ⟨(k, v) :: c.entries⟩
  else ⟨(k, v) :: c.entries.dropLast⟩

/-- `cache[key]` (`LRUCache.__getitem__`): returns the snapshot and promotes
the key to most-recently-used. -/
def LRU.get (c : LRU cap) (k : Nat) : Option FlatCtx × LRU cap :=
  match c.entries.find? (fun p => p.1 == k) with
  | none => (none, c)
  | some (_, v) => (some v, ⟨(k, v) :: eraseEntry c.entries k⟩)

/-- The transient registry `active_contexts : dict[int, Context]`. -/
def lookupActive (active : List (Nat × Ctx)) (k : Nat) : Option Ctx :=
  (active.find? (fun p => p.1 == k)).map (·.2)

/-- `active_contexts[k] = ctx`. -/
def setActive (active : List (Nat × Ctx)) (k : Nat) (v : Ctx) : List (Nat × Ctx) :=
  (k, v) :: active.filter (fun p => p.1 ≠ k)

/-- `active_contexts.pop(k, None)`. -/
def popActive (active : List (Nat × Ctx)) (k : Nat) : List (Nat × Ctx) :=
  active.filter (fun p => p.1 ≠ k)

/-- The dispatcher state read and written by `run_cmd` and
`on_message_edit`: the bounded snapshot cache and the transient registry. -/
structure DState (cap : Nat) : Type where
  cache : LRU cap
  active : List (Nat × Ctx)
deriving DecidableEq, Repr

/-- `cmdClient.run_cmd` (src/cmdClient.py lines 283-299) from the point where
the context has been built: insert the snapshot into the bounded cache and
the live context into the transient registry, run the lifecycle (an arbitrary
state transformer returning the final, possibly mutated, context — any
exception it raises is either swallowed by the `except` clause or, for a
cancellation, re-raised only after `finally`), then in `finally` refresh the
snapshot from the final context and remove the registry entry. -/
def runCmd (st : DState cap) (mid : Nat) (ctx : Ctx)
    (lifecycle : DState cap → DState cap × Ctx) : DState cap :=
  let st1 : DState cap :=
    { cache := st.cache.insert mid ctx.flatten, active := setActive st.active mid ctx }
  let r := lifecycle st1
  { cache := r.1.cache.insert mid r.2.flatten, active := popActive r.1.active mid }

/-- Effects emitted by `on_message_edit` and the two response cleaners:
task cancellations, the poll-loop sleeps, a bulk delete, a per-message fetch,
a per-message delete, the re-parse of the edited message, and the
treat-as-new dispatch `on_message(after)`. -/
inductive HEffect : Type where
  | cancelTask (t : Nat)
  | sleep
  | bulkDelete (ids : List Nat)
  | fetchMsg (id : Nat)
  | deleteMsg (id : Nat)
  | reparse
  | dispatchNew
deriving DecidableEq, Repr

/-- Whether an effect is a bulk-delete call. -/
def HEffect.isBulk : HEffect → Bool
  | .bulkDelete _ => true
  | _ => false

/-- The delete attempts contained in a trace: the identities named by a bulk
delete plus those of individual deletes. -/
def deleteAttempts (tr : List HEffect) : List Nat :=
  tr.flatMap (fun e =>
    match e with
    | .bulkDelete ids => ids
    | .deleteMsg id => [id]
    | _ => [])

/-- `cmdClient.flat_command_response_cleaner` (src/cmdClient.py lines
192-202): if the recorded channel cannot be resolved, do nothing; otherwise
fetch each recorded response and schedule its deletion, swallowing any
exception per message (`fetchOk` tells which fetches succeed). -/
def flatCleaner (chExists : Bool) (fetchOk : Nat → Bool) (sent : List Nat) :
    List HEffect :=
  if chExists then
    sent.flatMap (fun id =>
      HEffect.fetchMsg id :: (if fetchOk id then [HEffect.deleteMsg id] else []))
  else []

/-- `cmdClient.active_command_response_cleaner` (src/cmdClient.py lines
204-211): one bulk delete of all sent responses when the context has a guild
and the client holds `manage_messages` in the channel, else one individual
delete per response (a `NotFound` from either path is swallowed). -/
def activeCleaner (ctx : Ctx) : List HEffect :=
  if ctx.gid.isSome && ctx.permManageMessages then [HEffect.bulkDelete ctx.sent_messages]
  else ctx.sent_messages.map HEffect.deleteMsg

/-- The `while after.id in self.active_contexts: await asyncio.sleep(0.1)`
loop, driven by the successive values the membership test observes (the
registry is mutated by the concurrently running lifecycle): one sleep per
`true` observation, exit at the first `false`; `none` when the observation
sequence is exhausted while still present (the loop has not terminated
within the window, so nothing after it runs). -/
def pollLoop : List Bool → Option (List HEffect)
  | [] => none
  | b :: rest => if b then (pollLoop rest).map (fun t => HEffect.sleep :: t) else some []

/-- `cmdClient.on_message_edit` (src/cmdClient.py lines 164-190).
Arguments: the dispatcher state, the edited message identity, the previous
and updated contents, the registry-membership values observed by the poll
loop after the first check (the first check necessarily sees the state the
handler saw), whether the client resolves the recorded channel, and which
message fetches succeed.  Returns the trace of effects, or `none` when the
poll loop does not terminate within the observation window. -/
def onMessageEdit (st : DState cap) (mid : Nat) (beforeContent afterContent : String)
    (presence : List Bool) (chExists : Bool) (fetchOk : Nat → Bool) :
    Option (List HEffect) :=
  if beforeContent == afterContent then some []
  else
    match (st.cache.get mid).1 with
    | none => some [HEffect.dispatchNew]
    | some flatctx =>
      let cleanup : Option (List HEffect) :=
        if flatctx.cleanup_on_edit then
          match lookupActive st.active mid with
          | some ctx =>
            if ctx.tasks.isEmpty then
              some (flatCleaner chExists fetchOk flatctx.sent_messages)
            else
              match pollLoop (true :: presence) with
              | none => none
              | some sleeps =>
                some ((ctx.tasks.map HEffect.cancelTask ++ sleeps) ++ activeCleaner ctx)
          | none => some (flatCleaner chExists fetchOk flatctx.sent_messages)
        else some []
      match cleanup with
      | none => none
      | some eff =>
        some (eff ++ (if flatctx.reparse_on_edit then [HEffect.reparse] else []))

/-- A leaf check: no parents, no requirements, just its own predicate. -/
def leafCheck (k : Nat) : Check := .mk "" "" k [] []

/-! ### Theorems: Check engine -/

theorem runParents_all_false (env : Nat → Bool) :
    ∀ l : List Check, (∀ q ∈ l, (runCheck env q).1 = false) →
      runParents env l = (false, l.flatMap (checkTrace env))
  | [], _ => by rw [runParents]; simp
  | c :: cs, h => by
      rw [runParents]
      have hc : (runCheck env c).1 = false := h c (by simp)
      have ih := runParents_all_false env cs (fun q hq => h q (by simp [hq]))
      simp [hc, ih, checkTrace]

theorem runParents_first_true (env : Nat → Bool) (pa : Check) (post : List Check) :
    ∀ pre : List Check, (∀ q ∈ pre, (runCheck env q).1 = false) →
      (runCheck env pa).1 = true →
      runParents env (pre ++ pa :: post) = (true, (pre ++ [pa]).flatMap (checkTrace env))
  | [], _, hpa => by rw [List.nil_append, runParents]; simp [hpa, checkTrace]
  | c :: cs, h, hpa => by
      rw [List.cons_append, runParents]
      have hc : (runCheck env c).1 = false := h c (by simp)
      have ih := runParents_first_true env pa post cs (fun q hq => h q (by simp [hq])) hpa
      simp [hc, ih, checkTrace]

theorem runRequired_all_true (env : Nat → Bool) :
    ∀ l : List Check, (∀ q ∈ l, (runCheck env q).1 = true) →
      runRequired env l = (true, l.flatMap (checkTrace env))
  | [], _ => by rw [runRequired]; simp
  | c :: cs, h => by
      rw [runRequired]
      have hc : (runCheck env c).1 = true := h c (by simp)
      have ih := runRequired_all_true env cs (fun q hq => h q (by simp [hq]))
      simp [hc, ih, checkTrace]

theorem runRequired_first_false (env : Nat → Bool) (r : Check) (post : List Check) :
    ∀ pre : List Check, (∀ q ∈ pre, (runCheck env q).1 = true) →
      (runCheck env r).1 = false →
      runRequired env (pre ++ r :: post) = (false, (pre ++ [r]).flatMap (checkTrace env))
  | [], _, hr => by rw [List.nil_append, runRequired]; simp [hr, checkTrace]
  | c :: cs, h, hr => by
      rw [List.cons_append, runRequired]
      have hc : (runCheck env c).1 = true := h c (by simp)
      have ih := runRequired_first_false env r post cs (fun q hq => h q (by simp [hq])) hr
      simp [hc, ih, checkTrace]

/-- C1: `Check.run` short-circuits exactly as described.  (1) If every parent
before some parent `pa` evaluates false and `pa` evaluates true, the check
returns `true` and the evaluation trace consists of exactly the runs of the
parents up to and including `pa`: no later parent, no requirement and not the
check's own predicate is evaluated.  (2) If all parents evaluate false and
every requirement before some requirement `r` evaluates true while `r`
evaluates false, the check returns `false` having evaluated only the parents
and the requirements up to and including `r`.  (3) If all parents evaluate
false and all requirements true, the result is the check's own predicate and
the trace ends with exactly one evaluation of it. -/
theorem check_run_short_circuit (env : Nat → Bool) (name msg : String) (p : Nat)
    (parents required : List Check) :
    (∀ pre pa post, parents = pre ++ pa :: post →
       (∀ q ∈ pre, (runCheck env q).1 = false) →
       (runCheck env pa).1 = true →
       runCheck env (.mk name msg p parents required) =
         (true, (pre ++ [pa]).flatMap (checkTrace env)))
    ∧ ((∀ q ∈ parents, (runCheck env q).1 = false) →
       ∀ pre r post, required = pre ++ r :: post →
         (∀ q ∈ pre, (runCheck env q).1 = true) →
         (runCheck env r).1 = false →
         runCheck env (.mk name msg p parents required) =
           (false, parents.flatMap (checkTrace env) ++ (pre ++ [r]).flatMap (checkTrace env)))
    ∧ ((∀ q ∈ parents, (runCheck env q).1 = false) →
       (∀ q ∈ required, (runCheck env q).1 = true) →
       runCheck env (.mk name msg p parents required) =
         (env p, parents.flatMap (checkTrace env) ++ required.flatMap (checkTrace env) ++ [p])) := by
  refine ⟨?_, ?_, ?_⟩
  · intro pre pa post hps hpre hpa
    subst hps
    rw [runCheck, runParents_first_true env pa post pre hpre hpa]
    simp
  · intro hps pre r post hrs hpre hr
    subst hrs
    rw [runCheck, runParents_all_false env parents hps,
      runRequired_first_false env r post pre hpre hr]
    simp
  · intro hps hrs
    rw [runCheck, runParents_all_false env parents hps, runRequired_all_true env required hrs]
    simp

/-- Witness for C1: a check with parents evaluating false, true, (unreached)
and one requirement; the run returns `true` having evaluated only the first
two parents. -/
theorem check_run_short_circuit_witness :
    runCheck (fun n => n == 1)
      (Check.mk "c" "" 5 [leafCheck 0, leafCheck 1, leafCheck 2] [leafCheck 3]) =
      (true, [0, 1]) := by
  have h := (check_run_short_circuit (fun n => n == 1) "c" "" 5
      [leafCheck 0, leafCheck 1, leafCheck 2] [leafCheck 3]).1
      [leafCheck 0] (leafCheck 1) [leafCheck 2] rfl (by decide) (by decide)
  exact h.trans (by decide)

/-! ### Theorems: lifecycle gating failure (C5) -/

/-- C5: when a composed check evaluates false and the failing check carries
no user-facing message (`msg` empty, i.e. falsy), `Command.run` produces
exactly one debug-level log record and nothing else: zero outbound sends and
no error-severity log. -/
theorem gating_failure_silent (env : Nat → Bool) (c : Check) (inner : ExecOutcome)
    (hfail : (runCheck env c).1 = false) (hmsg : c.msg = "") :
    commandRunEffects (checkedOutcome env c inner) = [Effect.logDebug "Command failed check"] ∧
    ∀ e ∈ commandRunEffects (checkedOutcome env c inner),
      e.isSend = false ∧ e.isErrorLog = false := by
  have ho : checkedOutcome env c inner = .failedCheck c.msg := by
    simp [checkedOutcome, hfail]
  rw [ho, hmsg]
  refine ⟨by simp [commandRunEffects], ?_⟩
  intro e he
  simp [commandRunEffects] at he
  subst he
  exact ⟨rfl, rfl⟩

/-- Witness for C5: a check whose predicate is false and whose message is
empty yields only the debug log record. -/
theorem gating_failure_silent_witness :
    commandRunEffects (checkedOutcome (fun _ => false) (Check.mk "n" "" 0 [] []) .ok) =
      [Effect.logDebug "Command failed check"] :=
  (gating_failure_silent (fun _ => false) (Check.mk "n" "" 0 [] []) .ok (by decide) rfl).1

/-! ### Theorems: flag parser, concrete behaviour (C2, C6) -/

/-- C2 counterexample: on the input `"--a=val b c"` with flag spec `a=` the
parser does not produce `{a: "val"}` with remainder `"b c"` — the `=`
-attached form `--a=val` is not a recognised flag marker (only the exact
tokens `-a`, `--a` and `—a` are), so the flag is reported absent and the
whole input is the remainder. -/
theorem flag_eq_attached_not_recognized :
    ¬ (dictGet (parseFlags "--a=val b c" ["a="]).1 "a" = some (FlagVal.str "val") ∧
       (parseFlags "--a=val b c" ["a="]).2 = "b c") := by
  decide

/-- C2 amended: with the value supplied as the following whitespace-delimited
token, `parse("--a val b c", ["a="])` yields flags `{a: "val"}` and remainder
`"b c"`. -/
theorem single_value_flag_takes_next_token :
    parseFlags "--a val b c" ["a="] = ([("a", FlagVal.str "val")], "b c") := by
  decide

/-- C6 counterexample: the remainder of `parse("x -- -a b", ["a"])` is not
`"x -a b"` — the whitespace on both sides of the removed `--` token is
retained, leaving two spaces between `x` and `-a`. -/
theorem terminator_remainder_not_single_spaced :
    ¬ ((parseFlags "x -- -a b" ["a"]).2 = "x -a b") := by
  decide

/-- C6 amended: `parse("x -- -a b", ["a"])` yields flags `{a: false}` (the
pre-terminator text is scanned and the flag is absent) and remainder
`"x  -a b"`: the `--` token stops flag scanning, the post-terminator text is
appended verbatim, and the whitespace that surrounded the removed `--` token
is retained on both sides (hence the double space). -/
theorem terminator_stops_scanning :
    parseFlags "x -- -a b" ["a"] = ([("a", FlagVal.bool false)], "x  -a b") := by
  decide

/-! ### Theorems: command-name dispatch (C10) -/

theorem maxStep_foldl_spec :
    ∀ (l : List (List Nat)) (acc : Option (List Nat)) (n : List Nat),
      l.foldl maxStep acc = some n →
      (n ∈ l ∨ acc = some n) ∧ (∀ m ∈ l, m.length ≤ n.length) ∧
        (∀ b, acc = some b → b.length ≤ n.length)
  | [], acc, n => by
      intro h
      simp at h
      exact ⟨Or.inr h, by simp, fun b hb => by rw [h] at hb; simp_all⟩
  | x :: l, acc, n => by
      intro h
      rw [List.foldl_cons] at h
      obtain ⟨hmem, hall, hacc⟩ := maxStep_foldl_spec l (maxStep acc x) n h
      have hx : x.length ≤ n.length := by
        cases acc with
        | none => exact hacc x rfl
        | some b =>
          by_cases hlen : x.length > b.length
          · exact hacc x (by simp [maxStep, hlen])
          · have hb : b.length ≤ n.length := hacc b (by simp [maxStep, hlen])
            omega
      refine ⟨?_, ?_, ?_⟩
      · rcases hmem with h1 | h1
        · exact Or.inl (List.mem_cons_of_mem x h1)
        · cases acc with
          | none =>
            have : x = n := by simpa [maxStep] using h1
            exact Or.inl (this ▸ List.mem_cons_self x l)
          | some b =>
            by_cases hlen : x.length > b.length
            · have : x = n := by simpa [maxStep, hlen] using h1
              exact Or.inl (this ▸ List.mem_cons_self x l)
            · exact Or.inr (by simpa [maxStep, hlen] using h1)
      · intro m hm
        rcases List.mem_cons.mp hm with h1 | h1
        · exact h1 ▸ hx
        · exact hall m h1
      · intro b hb
        subst hb
        cases hlen : decide (x.length > b.length) with
        | true =>
          have hxn := hacc x (by simp [maxStep, of_decide_eq_true hlen])
          have := of_decide_eq_true hlen
          omega
        | false => exact hacc b (by simp [maxStep, of_decide_eq_false hlen])

/-- C10: the command-name resolution of `parse_message`.  (1) When a name is
picked, it is a registered name that matches the lowercased leading slice of
the post-prefix content, and no matching registered name is longer.  (2) A
registered name containing an uppercase (ASCII) code point never matches any
content. -/
theorem dispatch_longest_lowercase_match (names : List (List Nat)) (content : List Nat) :
    (∀ n, pickCmdName names content = some n →
       n ∈ names ∧ matchesName content n = true ∧
       ∀ m ∈ names, matchesName content m = true → m.length ≤ n.length)
    ∧ (∀ n ∈ names, (∃ c ∈ n, 65 ≤ c ∧ c ≤ 90) → matchesName content n = false) := by
  constructor
  · intro n hpick
    unfold pickCmdName maxByLen at hpick
    obtain ⟨hmem, hall, _⟩ :=
      maxStep_foldl_spec (names.filter (fun m => matchesName content m)) none n hpick
    have hnf : n ∈ names.filter (fun m => matchesName content m) := by
      rcases hmem with h | h
      · exact h
      · simp at h
    obtain ⟨hn, hmatch⟩ := List.mem_filter.mp hnf
    refine ⟨hn, hmatch, ?_⟩
    intro m hm hmmatch
    exact hall m (List.mem_filter.mpr ⟨hm, hmmatch⟩)
  · intro n hn hex
    obtain ⟨c, hc, h65, h90⟩ := hex
    by_contra hmatch
    rw [Bool.not_eq_false] at hmatch
    unfold matchesName at hmatch
    have heq : (content.take n.length).map lowerCp = n := by
      simpa using hmatch
    rw [← heq] at hc
    obtain ⟨x, _, hlx⟩ := List.mem_map.mp hc
    by_cases hxr : 65 ≤ x ∧ x ≤ 90
    · rw [lowerCp, if_pos hxr] at hlx
      omega
    · rw [lowerCp, if_neg hxr] at hlx
      omega

/-- Witness for C10: with registered names `"hi"` and `"h"` (as code points)
and content `"HI!"`, the picked command is `"hi"` — the longest lowercased
match. -/
theorem dispatch_longest_lowercase_match_witness :
    [104, 105] ∈ [[104, 105], [104]] ∧
      matchesName [72, 73, 33] [104, 105] = true ∧
      ∀ m ∈ [[104, 105], [104]], matchesName [72, 73, 33] m = true →
        m.length ≤ [104, 105].length :=
  (dispatch_longest_lowercase_match [[104, 105], [104]] [72, 73, 33]).1
    [104, 105] (by decide)

/-! ### Theorems: flag position selection (C9) -/

theorem pyIndex_spec (x : String) :
    ∀ l : List String, x ∈ l →
      pyIndex l x < l.length ∧ l.getD (pyIndex l x) "" = x ∧
        ∀ j, j < pyIndex l x → l.getD j "" ≠ x
  | [], h => absurd h (by simp)
  | a :: l, h => by
      by_cases ha : a == x
      · have h0 : pyIndex (a :: l) x = 0 := by
          simp [pyIndex, List.findIdx_cons, ha]
        refine ⟨by simp [h0], by simp [h0]; exact eq_of_beq ha, ?_⟩
        intro j hj
        rw [h0] at hj
        exact absurd hj (Nat.not_lt_zero j)
      · have hmem : x ∈ l := by
          rcases List.mem_cons.mp h with h1 | h1
          · exact absurd (beq_iff_eq.mpr h1.symm) ha
          · exact h1
        have h1 : pyIndex (a :: l) x = pyIndex l x + 1 := by
          simp [pyIndex, List.findIdx_cons, ha]
        obtain ⟨ihl, ihg, ihj⟩ := pyIndex_spec x l hmem
        refine ⟨by simp [h1]; omega, by simpa [h1] using ihg, ?_⟩
        intro j hj
        cases j with
        | zero =>
          simp only [List.getD_cons_zero]
          intro hax
          exact ha (beq_iff_eq.mpr hax)
        | succ j =>
          rw [h1] at hj
          simpa using ihj j (by omega)

/-- C9 counterexample: the parser does not position a flag at the earliest
occurrence of any of its three marker forms.  On the token stream of
`"--a -a"` the flag `a` is positioned at index 3 (the short form `-a`) even
though its long form `--a` occurs earlier at index 1. -/
theorem flag_position_not_earliest_occurrence :
    ¬ (∀ (params : List String) (c : String) (i : Nat),
        findFlagIndex params c = some i →
        ∀ j, j < i →
          params.getD j "" ≠ "-" ++ c ∧ params.getD j "" ≠ "--" ++ c ∧
            params.getD j "" ≠ "—" ++ c) := by
  intro h
  have := h (reSplit "--a -a") "a" 3 (by decide) 1 (by decide)
  exact this.2.1 (by decide)

/-- C9 amended: the parser checks the three marker forms in the fixed order
short `-name`, long `--name`, em-dash `—name`, and positions the flag at the
first occurrence of the first form that is present at all; the earliest
occurrence rule holds only within a single form, not across forms. -/
theorem flag_form_priority (params : List String) (c : String) (i : Nat)
    (h : findFlagIndex params c = some i) :
    (params.getD i "" = "-" ++ c ∧ ∀ j, j < i → params.getD j "" ≠ "-" ++ c)
    ∨ (("-" ++ c) ∉ params ∧ params.getD i "" = "--" ++ c ∧
       ∀ j, j < i → params.getD j "" ≠ "--" ++ c)
    ∨ (("-" ++ c) ∉ params ∧ ("--" ++ c) ∉ params ∧ params.getD i "" = "—" ++ c ∧
       ∀ j, j < i → params.getD j "" ≠ "—" ++ c) := by
  unfold findFlagIndex at h
  by_cases h1 : ("-" ++ c) ∈ params
  · rw [if_pos h1] at h
    obtain ⟨_, hg, hj⟩ := pyIndex_spec ("-" ++ c) params h1
    cases h
    exact Or.inl ⟨hg, hj⟩
  · rw [if_neg h1] at h
    by_cases h2 : ("--" ++ c) ∈ params
    · rw [if_pos h2] at h
      obtain ⟨_, hg, hj⟩ := pyIndex_spec ("--" ++ c) params h2
      cases h
      exact Or.inr (Or.inl ⟨h1, hg, hj⟩)
    · rw [if_neg h2] at h
      by_cases h3 : ("—" ++ c) ∈ params
      · rw [if_pos h3] at h
        obtain ⟨_, hg, hj⟩ := pyIndex_spec ("—" ++ c) params h3
        cases h
        exact Or.inr (Or.inr ⟨h1, h2, hg, hj⟩)
      · rw [if_neg h3] at h
        cases h

/-- Witness for C9 amended: on the token stream of `"--a -a"` the conclusion
holds at the position the parser actually picks (index 3, the short form). -/
theorem flag_form_priority_witness :
    ((["", "--a", " ", "-a", ""].getD 3 "" = "-" ++ "a" ∧
       ∀ j, j < 3 → ["", "--a", " ", "-a", ""].getD j "" ≠ "-" ++ "a")
    ∨ (("-" ++ "a") ∉ ["", "--a", " ", "-a", ""] ∧
       ["", "--a", " ", "-a", ""].getD 3 "" = "--" ++ "a" ∧
       ∀ j, j < 3 → ["", "--a", " ", "-a", ""].getD j "" ≠ "--" ++ "a")
    ∨ (("-" ++ "a") ∉ ["", "--a", " ", "-a", ""] ∧
       ("--" ++ "a") ∉ ["", "--a", " ", "-a", ""] ∧
       ["", "--a", " ", "-a", ""].getD 3 "" = "—" ++ "a" ∧
       ∀ j, j < 3 → ["", "--a", " ", "-a", ""].getD j "" ≠ "—" ++ "a")) :=
  flag_form_priority ["", "--a", " ", "-a", ""] "a" 3 (by decide)

/-! ### Theorems: run_cmd postcondition (C4) -/

theorem LRU.lookup_insert (c : LRU cap) (k : Nat) (v : FlatCtx) :
    (c.insert k v).lookup k = some v := by
  unfold LRU.insert LRU.lookup
  split
  · simp [List.find?]
  · split <;> simp [List.find?]

theorem lookupActive_pop (active : List (Nat × Ctx)) (k : Nat) :
    lookupActive (popActive active k) k = none := by
  unfold lookupActive popActive
  rw [List.find?_eq_none.mpr]
  · rfl
  · intro x hx
    have := (List.mem_filter.mp hx).2
    simp at this ⊢
    exact this

/-- C4: whatever the lifecycle does (normal completion, gating failure, safe
cancellation, framework cancellation, timeout or any other fault are all
absorbed into the arbitrary `lifecycle` transformer, since the `finally`
block of `run_cmd` runs in every one of these cases), upon return of
`run_cmd` the message identity is gone from the transient registry and the
bounded cache holds the snapshot flattened from the invocation's final
state.  The capacity hypothesis restricts to real caches (`cachetools`
refuses to store anything at maxsize 0). -/
theorem run_cmd_postcondition (cap : Nat) (st : DState cap) (mid : Nat) (ctx : Ctx)
    (lifecycle : DState cap → DState cap × Ctx) (hcap : 0 < cap) :
    (runCmd st mid ctx lifecycle).cache.lookup mid =
      some (lifecycle { cache := st.cache.insert mid ctx.flatten,
                        active := setActive st.active mid ctx }).2.flatten ∧
    lookupActive (runCmd st mid ctx lifecycle).active mid = none := by
  unfold runCmd
  exact ⟨LRU.lookup_insert _ _ _, lookupActive_pop _ _⟩

/-- A sample live context used by concrete scenarios. -/
def ctxA : Ctx :=
  { mid := some 7, cid := some 1, gid := none, uid := some 2, arg_str := some "x",
    cmdName := some "ping", aliasName := some "ping", prefixStr := some "!",
    cleanup_on_edit := true, reparse_on_edit := true, sent_messages := [],
    tasks := [100], permManageMessages := false }

/-- The same invocation after its lifecycle ran and sent two responses. -/
def ctxB : Ctx := { ctxA with sent_messages := [41, 42] }

/-- Witness for C4: a lifecycle that mutates the context into `ctxB` leaves
the registry empty at the key and the cache holding `ctxB`'s snapshot. -/
theorem run_cmd_postcondition_witness :
    (runCmd (⟨⟨[]⟩, []⟩ : DState 1) 7 ctxA (fun s => (s, ctxB))).cache.lookup 7 =
      some ctxB.flatten ∧
    lookupActive (runCmd (⟨⟨[]⟩, []⟩ : DState 1) 7 ctxA (fun s => (s, ctxB))).active 7 =
      none :=
  run_cmd_postcondition 1 ⟨⟨[]⟩, []⟩ 7 ctxA (fun s => (s, ctxB)) (by decide)

/-! ### Theorems: LRU eviction and treat-as-new dispatch (C8) -/

/-- A sample snapshot used by the cache scenarios. -/
def snapFor (m : Nat) : FlatCtx :=
  { mid := some m, cid := some 1, gid := none, uid := some 2, arg_str := some "",
    cmd := some "c", aliasName := some "c", prefixStr := some "!",
    cleanup_on_edit := true, reparse_on_edit := true, sent_messages := [] }

/-- Capacity-2 cache after inserting snapshots for message identities 1, 2, 3
in that order. -/
def c8cache : LRU 2 :=
  (((⟨[]⟩ : LRU 2).insert 1 (snapFor 1)).insert 2 (snapFor 2)).insert 3 (snapFor 3)

/-- C8: with capacity 2, inserting snapshots for identities 1, 2, 3 in that
order evicts identity 1 (the least recently used), keeping exactly 3 and 2 in
recency order; a content-changing edit notification for identity 1 then
misses the cache and is handled as a brand-new incoming message
(`on_message(after)`, i.e. full dispatch from scratch).  In addition, a
cache lookup promotes the looked-up entry to most-recently-used. -/
theorem lru_eviction_and_new_dispatch :
    ((c8cache.lookup 1 = none ∧ c8cache.entries.map Prod.fst = [3, 2]) ∧
      onMessageEdit (⟨c8cache, []⟩ : DState 2) 1 "old" "new" [] true (fun _ => true) =
        some [HEffect.dispatchNew])
    ∧ ∀ (cap : Nat) (c : LRU cap) (k : Nat) (v : FlatCtx),
        c.lookup k = some v →
          (c.get k).1 = some v ∧ (c.get k).2.entries.head? = some (k, v) := by
  constructor
  · exact ⟨⟨by decide, by decide⟩, by decide⟩
  · intro cap c k v h
    unfold LRU.lookup at h
    unfold LRU.get
    cases hf : c.entries.find? (fun p => p.1 == k) with
    | none => rw [hf] at h; simp at h
    | some p =>
      obtain ⟨k1, v1⟩ := p
      rw [hf] at h
      simp at h
      subst h
      simp [hf]

/-- Witness for C8: the promotion clause applied to a concrete one-entry
cache. -/
theorem lru_eviction_and_new_dispatch_witness :
    ((⟨[(5, snapFor 5)]⟩ : LRU 1).get 5).1 = some (snapFor 5) ∧
      ((⟨[(5, snapFor 5)]⟩ : LRU 1).get 5).2.entries.head? = some (5, snapFor 5) :=
  lru_eviction_and_new_dispatch.2 1 ⟨[(5, snapFor 5)]⟩ 5 (snapFor 5) (by decide)

/-! ### Theorems: edit reaction while the invocation is running (C3) -/

theorem pollLoop_terminates :
    ∀ presence : List Bool, false ∈ presence →
      ∃ n, pollLoop presence = some (List.replicate n HEffect.sleep)
  | [], h => absurd h (by simp)
  | b :: rest, h => by
      cases b with
      | false => exact ⟨0, by simp [pollLoop]⟩
      | true =>
        have hrest : false ∈ rest := by simpa using h
        obtain ⟨n, hn⟩ := pollLoop_terminates rest hrest
        exact ⟨n + 1, by simp [pollLoop, hn, List.replicate_succ]⟩

theorem deleteAttempts_append (t1 t2 : List HEffect) :
    deleteAttempts (t1 ++ t2) = deleteAttempts t1 ++ deleteAttempts t2 := by
  simp [deleteAttempts]

theorem deleteAttempts_cancelTasks :
    ∀ l : List Nat, deleteAttempts (l.map HEffect.cancelTask) = []
  | [] => rfl
  | a :: l => by
      have ih := deleteAttempts_cancelTasks l
      simpa [deleteAttempts, List.flatMap_cons] using ih

theorem deleteAttempts_sleeps (n : Nat) :
    deleteAttempts (List.replicate n HEffect.sleep) = [] := by
  induction n with
  | zero => rfl
  | succ n ih => simpa [deleteAttempts, List.replicate_succ, List.flatMap_cons] using ih

theorem deleteAttempts_indiv :
    ∀ l : List Nat, deleteAttempts (l.map HEffect.deleteMsg) = l
  | [] => rfl
  | a :: l => by
      have ih := deleteAttempts_indiv l
      simpa [deleteAttempts, List.flatMap_cons] using ih

theorem deleteAttempts_activeCleaner (ctx : Ctx) :
    deleteAttempts (activeCleaner ctx) = ctx.sent_messages := by
  unfold activeCleaner
  split
  · simp [deleteAttempts, List.flatMap_cons]
  · exact deleteAttempts_indiv _

theorem cancel_not_mem_activeCleaner (ctx : Ctx) (t : Nat) :
    HEffect.cancelTask t ∉ activeCleaner ctx := by
  unfold activeCleaner
  split
  · simp
  · simp [List.mem_map]

/-- C3: an edit of a message whose cached snapshot has `cleanup_on_edit` set
and whose identity is still in the transient registry (its live invocation
holding at least one task — every registered invocation does, because
`Command.run` appends the lifecycle's top-level task before the first
suspension point) makes the handler cancel every task of the invocation
exactly once, then sleep-poll until the registry membership observation turns
false (the lifecycle runner removed the entry), and only then run the active
cleaner, in which every response identity recorded in the live invocation
receives exactly one delete attempt — in particular no duplicate deletes:
the single edit event runs exactly one cleaner. -/
theorem edit_cleanup_active (cap : Nat) (st : DState cap) (mid : Nat)
    (bC aC : String) (presence : List Bool) (chEx : Bool) (fOk : Nat → Bool)
    (flat : FlatCtx) (ctx : Ctx)
    (hne : (bC == aC) = false)
    (hcache : (st.cache.get mid).1 = some flat)
    (hclean : flat.cleanup_on_edit = true)
    (hactive : lookupActive st.active mid = some ctx)
    (htasks : ctx.tasks ≠ [])
    (hterm : false ∈ presence)
    (hT : ctx.tasks.Nodup)
    (hS : ctx.sent_messages.Nodup) :
    ∃ n tr,
      onMessageEdit st mid bC aC presence chEx fOk = some tr ∧
      tr = (ctx.tasks.map HEffect.cancelTask ++ List.replicate (n + 1) HEffect.sleep) ++
        activeCleaner ctx ++ (if flat.reparse_on_edit then [HEffect.reparse] else []) ∧
      (∀ t ∈ ctx.tasks, tr.count (HEffect.cancelTask t) = 1) ∧
      deleteAttempts tr = ctx.sent_messages ∧
      (∀ m ∈ ctx.sent_messages, (deleteAttempts tr).count m = 1) := by
  obtain ⟨n, hn⟩ := pollLoop_terminates presence hterm
  have hie : ctx.tasks.isEmpty = false := List.isEmpty_eq_false.mpr htasks
  have hp : pollLoop (true :: presence) = some (List.replicate (n + 1) HEffect.sleep) := by
    simp [pollLoop, hn, List.replicate_succ]
  refine ⟨n, (ctx.tasks.map HEffect.cancelTask ++ List.replicate (n + 1) HEffect.sleep) ++
      activeCleaner ctx ++ (if flat.reparse_on_edit then [HEffect.reparse] else []),
    ?_, rfl, ?_, ?_, ?_⟩
  · simp only [onMessageEdit, hne, hcache, hclean, hactive, hie, hp]
    simp [List.append_assoc]
  · intro t ht
    have hinj : Function.Injective HEffect.cancelTask := fun a b hab => by
      injection hab
    rw [List.count_append, List.count_append, List.count_append]
    rw [List.count_map_of_injective _ _ hinj, List.count_eq_one_of_mem hT ht]
    rw [List.count_replicate]
    rw [List.count_eq_zero.mpr (cancel_not_mem_activeCleaner ctx t)]
    have hrep : ((if flat.reparse_on_edit then [HEffect.reparse] else []).count
        (HEffect.cancelTask t)) = 0 := by
      split <;> simp
    rw [hrep]
    simp
  · rw [deleteAttempts_append, deleteAttempts_append, deleteAttempts_append,
      deleteAttempts_cancelTasks, deleteAttempts_sleeps, deleteAttempts_activeCleaner]
    have hrep : deleteAttempts (if flat.reparse_on_edit then [HEffect.reparse] else []) = [] := by
      split <;> rfl
    rw [hrep]
    simp
  · intro m hm
    rw [deleteAttempts_append, deleteAttempts_append, deleteAttempts_append,
      deleteAttempts_cancelTasks, deleteAttempts_sleeps, deleteAttempts_activeCleaner]
    have hrep : deleteAttempts (if flat.reparse_on_edit then [HEffect.reparse] else []) = [] := by
      split <;> rfl
    rw [hrep]
    simpa using List.count_eq_one_of_mem hS hm

/-- Snapshot of a still-running invocation used by the C3 scenario. -/
def flatW : FlatCtx :=
  { mid := some 9, cid := some 1, gid := some 4, uid := some 2, arg_str := some "",
    cmd := some "c", aliasName := some "c", prefixStr := some "!",
    cleanup_on_edit := true, reparse_on_edit := false, sent_messages := [41, 42] }

/-- The matching live invocation: two tasks, two sent responses, bulk-delete
permission held. -/
def ctxW : Ctx :=
  { mid := some 9, cid := some 1, gid := some 4, uid := some 2, arg_str := some "",
    cmdName := some "c", aliasName := some "c", prefixStr := some "!",
    cleanup_on_edit := true, reparse_on_edit := false, sent_messages := [41, 42],
    tasks := [100, 101], permManageMessages := true }

/-- Dispatcher state with message 9 both cached and registered as active. -/
def stW : DState 2 := ⟨⟨[(9, flatW)]⟩, [(9, ctxW)]⟩

/-- Witness for C3: the concrete still-running scenario, with the registry
observed present once and then absent. -/
theorem edit_cleanup_active_witness :
    ∃ n tr,
      onMessageEdit stW 9 "a" "b" [true, false] true (fun _ => true) = some tr ∧
      tr = (ctxW.tasks.map HEffect.cancelTask ++ List.replicate (n + 1) HEffect.sleep) ++
        activeCleaner ctxW ++ (if flatW.reparse_on_edit then [HEffect.reparse] else []) ∧
      (∀ t ∈ ctxW.tasks, tr.count (HEffect.cancelTask t) = 1) ∧
      deleteAttempts tr = ctxW.sent_messages ∧
      (∀ m ∈ ctxW.sent_messages, (deleteAttempts tr).count m = 1) :=
  edit_cleanup_active 2 stW 9 "a" "b" [true, false] true (fun _ => true) flatW ctxW
    (by decide) (by decide) rfl (by decide) (by decide) (by decide) (by decide) (by decide)

/-! ### Theorems: edit reaction after the invocation finished (C7) -/

/-- Snapshot of a finished invocation with two recorded responses (C7
scenario). -/
def flat7 : FlatCtx :=
  { mid := some 5, cid := some 1, gid := some 4, uid := some 2, arg_str := some "",
    cmd := some "c", aliasName := some "c", prefixStr := some "!",
    cleanup_on_edit := true, reparse_on_edit := false, sent_messages := [10, 11] }

/-- Dispatcher state with message 5 cached but no longer active. -/
def st7 : DState 1 := ⟨⟨[(5, flat7)]⟩, []⟩

/-- C7 counterexample: for a finished invocation the cleanup is NOT the
bulk-or-individual strategy of the still-running case.  Even in a guild
channel where the caller holds `manage_messages` (permission state the flat
cleaner never consults), the handler emits a fetch-then-delete pair per
recorded response and no bulk-delete call at all. -/
theorem finished_cleanup_never_bulk :
    onMessageEdit st7 5 "a" "b" [] true (fun _ => true) =
      some [HEffect.fetchMsg 10, HEffect.deleteMsg 10,
            HEffect.fetchMsg 11, HEffect.deleteMsg 11] ∧
    ([HEffect.fetchMsg 10, HEffect.deleteMsg 10,
      HEffect.fetchMsg 11, HEffect.deleteMsg 11].all (fun e => !e.isBulk)) = true := by
  decide

theorem deleteAttempts_fetchDel (fOk : Nat → Bool) :
    ∀ l : List Nat, deleteAttempts (flatCleaner true fOk l) = l.filter fOk
  | [] => rfl
  | a :: l => by
      have ih := deleteAttempts_fetchDel fOk l
      by_cases hf : fOk a <;>
        simp [flatCleaner, deleteAttempts, List.flatMap_cons, List.filter_cons, hf] at ih ⊢ <;>
        exact ih

/-- C7 amended: when `cleanup_on_edit` is set and the identity is absent from
the transient registry, the handler runs the flat cleaner on the snapshot's
recorded responses: if the recorded channel cannot be resolved it does
nothing, otherwise it deletes each response individually (fetch then delete,
a failed fetch tolerated by skipping that message) — one delete attempt per
fetchable recorded response and never a bulk-delete call, regardless of any
permission held. -/
theorem edit_cleanup_finished (cap : Nat) (st : DState cap) (mid : Nat)
    (bC aC : String) (presence : List Bool) (chEx : Bool) (fOk : Nat → Bool)
    (flat : FlatCtx)
    (hne : (bC == aC) = false)
    (hcache : (st.cache.get mid).1 = some flat)
    (hclean : flat.cleanup_on_edit = true)
    (hactive : lookupActive st.active mid = none)
    (hS : flat.sent_messages.Nodup) :
    onMessageEdit st mid bC aC presence chEx fOk =
      some (flatCleaner chEx fOk flat.sent_messages ++
        (if flat.reparse_on_edit then [HEffect.reparse] else [])) ∧
    (∀ e ∈ flatCleaner chEx fOk flat.sent_messages, e.isBulk = false) ∧
    (chEx = false → flatCleaner chEx fOk flat.sent_messages = []) ∧
    (chEx = true → ∀ m ∈ flat.sent_messages,
      (deleteAttempts (flatCleaner chEx fOk flat.sent_messages)).count m =
        if fOk m then 1 else 0) := by
  refine ⟨?_, ?_, ?_, ?_⟩
  · simp only [onMessageEdit, hne, hcache, hclean, hactive]
    simp
  · intro e he
    unfold flatCleaner at he
    by_cases hch : chEx
    · rw [if_pos hch] at he
      obtain ⟨a, _, ha⟩ := List.mem_flatMap.mp he
      rcases List.mem_cons.mp ha with h1 | h1
      · subst h1; rfl
      · split at h1
        · simp at h1; subst h1; rfl
        · simp at h1
    · rw [if_neg hch] at he
      simp at he
  · intro hch
    subst hch
    rfl
  · intro hch m hm
    subst hch
    rw [deleteAttempts_fetchDel]
    by_cases hf : fOk m
    · rw [if_pos hf, List.count_filter hf, List.count_eq_one_of_mem hS hm]
    · rw [if_neg hf, List.count_eq_zero.mpr]
      intro hmem
      exact hf ((List.mem_filter.mp hmem).2)

/-- Witness for C7 amended: the finished-invocation scenario runs the flat
cleaner followed by no re-parse. -/
theorem edit_cleanup_finished_witness :
    onMessageEdit st7 5 "a" "b" [] true (fun _ => true) =
      some (flatCleaner true (fun _ => true) flat7.sent_messages ++
        (if flat7.reparse_on_edit then [HEffect.reparse] else [])) :=
  (edit_cleanup_finished 1 st7 5 "a" "b" [] true (fun _ => true) flat7
    (by decide) (by decide) rfl rfl (by decide)).1
